import Mathlib

/-!
Verification development for `mjhmc/misc/tf_distributions.py`.

The module defines a `TensorflowDistribution` adapter (placeholder of shape
`[ndims, None]`, an energy op of shape `[batch]`, a gradient op of shape
`[ndims, batch]` obtained with `tf.gradients`, session execution with an
optional chrome-trace side effect) together with three concrete energy
models: `Funnel`, `TFGaussian` and `SparseImageCode`.

Shallow embedding conventions:
- a dense float array of shape `[r, c]` is a `List (List Rat)` of `r` rows,
  each of length `c`; exact rational arithmetic stands in for float32;
- `tf.exp` and `tf.log` are abstract parameters `(e lg : Rat -> Rat)` of the
  definitions that use them (the claims under study never depend on their
  values at the points where they matter);
- `sess.run` of a compiled sub-graph is a pure function of the feed, so the
  adapter's `E_val` and `dEdX_val` take that function as a parameter and
  return the value paired with the optional trace-artifact path;
- Python's numeric hash is embedded after the documented CPython algorithm
  (`hash(n) = n mod (2^61 - 1)` with sign and the `-1 -> -2` adjustment,
  rationals via the modular inverse of the denominator); the tuple hash is
  an abstract function of the list of element hashes, which is all CPython
  guarantees across versions.
-/

/-- Shape predicate: `X` is an `r` by `c` dense array (list of `r` rows of
length `c`). -/
def isMatrix (r c : ℕ) (X : List (List ℚ)) : Prop :=
  X.length = r ∧ ∀ row ∈ X, row.length = c

instance (r c : ℕ) (X : List (List ℚ)) : Decidable (isMatrix r c X) := by
  unfold isMatrix; infer_instance

/-- Embedding of `tf.reduce_sum(rows, 0)` on a `[len rows, b]` tensor:
columnwise sum, the empty reduction giving the zero vector of length `b`
(the batch width is part of the tensor's static shape in the source). -/
def reduceSum0 (b : ℕ) (rows : List (List ℚ)) : List ℚ :=
  rows.foldr (fun r acc => List.zipWith (fun a c => a + c) r acc) (List.replicate b 0)

/-- Entry lookup `A[i][j]` with default `0`, mirroring dense indexing into a
well-shaped array. -/
def entry (A : List (List ℚ)) (i j : ℕ) : ℚ :=
  (A.getD i []).getD j 0

/- ### Python hash model (CPython, documented numeric hashing) -/

/-- CPython hash modulus `2^61 - 1` for 64-bit builds (`sys.hash_info.modulus`). -/
def M61 : ℕ := 2305843009213693951

/-- Fuel-driven fast modular exponentiation, `b ^ e % m`. -/
def powModAux : ℕ → ℕ → ℕ → ℕ → ℕ
  | 0, _, _, _ => 1
  | fuel + 1, b, e, m =>
    if e = 0 then 1 % m
    else
      let r := powModAux fuel (b * b % m) (e / 2) m
      if e % 2 = 1 then b * r % m else r

/-- Modular exponentiation `b ^ e % m` (64 squarings suffice for `e < 2^64`). -/
def powMod (b e m : ℕ) : ℕ := powModAux 64 (b % m) e m

/-- CPython `hash` of an `int`: reduce the absolute value mod `2^61 - 1`,
restore the sign, and map `-1` to `-2`. -/
def pyHashInt (n : ℤ) : ℤ :=
  let h : ℤ := ((n.natAbs % M61 : ℕ) : ℤ)
  let s : ℤ := if n < 0 then -h else h
  if s = -1 then -2 else s

/-- CPython `hash` of a rational number `p/q` in lowest terms (the documented
algorithm shared by `int`, `float` and `Fraction`): `|p| * q^(-1) mod 2^61-1`
with the sign of `p`, `-1` adjusted to `-2`; a denominator divisible by the
modulus hashes like an infinity. Exact floats are a subset of this domain. -/
def pyHashRat (x : ℚ) : ℤ :=
  if x.den % M61 = 0 then (if x.num < 0 then -314159 else 314159)
  else
    let h : ℤ := (((x.num.natAbs % M61) * powMod x.den (M61 - 2) M61 % M61 : ℕ) : ℤ)
    let s : ℤ := if x.num < 0 then -h else h
    if s = -1 then -2 else s

/- ### Device policy and execution adapter -/

/-- Device argument of `TensorflowDistribution.__init__`: either a plain
device string or a dict (modelled as an association list). -/
inductive DeviceSpec where
  | str : String → DeviceSpec
  | dict : List (String × String) → DeviceSpec

/-- Resolution of the `device` argument into the pair
`(grad_device, energy_device)`: a dict must contain both the key "grad" and
the key "energy" (the source asserts each in turn, so a missing key raises —
the spec's ConfigurationError); a plain string is used for both roles. -/
def resolveDevice : DeviceSpec → Except String (String × String)
  | .dict m =>
    match m.lookup "grad" with
    | none => .error "AssertionError: grad not in device"
    | some g =>
      match m.lookup "energy" with
      | none => .error "AssertionError: energy not in device"
      | some en => .ok (g, en)
  | .str d => .ok (d, d)

/-- Configuration state the constructor leaves behind for the evaluation
calls: the two resolved devices and the `prof_run` flag. -/
structure AdapterConfig where
  grad_device : String
  energy_device : String
  prof_run : Bool
deriving DecidableEq

/-- Constructor fragment of `TensorflowDistribution.__init__` that this
development models: resolve the device spec and record `prof_run`. -/
def mkConfig (dev : DeviceSpec) (prof : Bool) : Except String AdapterConfig :=
  (resolveDevice dev).map (fun p => ⟨p.1, p.2, prof⟩)

/-- Path of the chrome-trace artifact written by a profiled run,
`~/tmp/logs/tf_<name>_<kind>_timeline_<timestamp>.json`. -/
def timelinePath (name kind : String) (t : ℕ) : String :=
  "~/tmp/logs/tf_" ++ name ++ "_" ++ kind ++ "_timeline_" ++ toString t ++ ".json"

/-- Embedding of `TensorflowDistribution.E_val`. `sessRun` is the pure value
semantics of `sess.run(self.energy_op, feed_dict)` (device placement is
value-transparent under soft placement, and the `options`/`run_metadata`
arguments of the profiled branch only additionally collect step stats).
Returns the energy array together with the optional trace-artifact path. -/
def E_val (cfg : AdapterConfig) (sessRun : List (List ℚ) → List ℚ)
    (name : String) (t : ℕ) (X : List (List ℚ)) : List ℚ × Option String :=
  if cfg.prof_run then
    (sessRun X, some (timelinePath name "energy" t))
  else
    (sessRun X, none)

/-- Embedding of `TensorflowDistribution.dEdX_val`, the gradient analogue of
`E_val` run under `grad_device`, with its own trace path. -/
def dEdX_val (cfg : AdapterConfig) (sessRunGrad : List (List ℚ) → List (List ℚ))
    (name : String) (t : ℕ) (X : List (List ℚ)) : List (List ℚ) × Option String :=
  if cfg.prof_run then
    (sessRunGrad X, some (timelinePath name "grad" t))
  else
    (sessRunGrad X, none)

/- ### Funnel -/

/-- Embedding of `Funnel.build_energy_op` at a feed `X` of shape `[ndims, b]`:
`e_x_0 = -(X[0,:]**2 / scale**2)` has shape `[b]`,
`e_x_k = -(X[1:,:]**2 / exp(X[0,:]))` has shape `[ndims-1, b]`,
and the result is `tf.reduce_sum(tf.add(e_x_0, e_x_k), 0)`. The add
broadcasts `e_x_0` across all `ndims - 1` rows of `e_x_k` before the
reduction. `e` is the embedding of `tf.exp`. -/
def Funnel.energy_op (e : ℚ → ℚ) (scale : ℚ) (X : List (List ℚ)) : List ℚ :=
  let row0 := X.headD []
  let b := row0.length
  let e_x_0 := row0.map (fun v => -(v ^ 2 / scale ^ 2))
  let e_x_k := (X.drop 1).map (fun row =>
    List.zipWith (fun xk x0 => -(xk ^ 2 / e x0)) row row0)
  reduceSum0 b (e_x_k.map (fun row => List.zipWith (fun a c => a + c) e_x_0 row))

/-- Energy formula the spec states for `Funnel`, written from the spec's
words for comparison with the source-derived `Funnel.energy_op`:
per batch column, `-(x0^2/scale^2) - sum_k(x_k^2 / exp(x0))`. -/
def Funnel.energySpecFormula (e : ℚ → ℚ) (scale : ℚ) (X : List (List ℚ))
    (j : ℕ) : ℚ :=
  let x0 := (X.headD []).getD j 0;
  -(x0 ^ 2 / scale ^ 2) - ((X.drop 1).map (fun row => (row.getD j 0) ^ 2 / e x0)).sum

/-- Embedding of `tf.gradients(energy_op, state_pl)[0]` for `Funnel`: the
exact mathematical gradient of the summed energy with respect to each
placeholder entry (automatic differentiation computes exact derivatives;
`tf.exp` differentiates to itself, so the abstract `e` appears as its own
derivative). -/
def Funnel.grad_op (e : ℚ → ℚ) (scale : ℚ) (X : List (List ℚ)) : List (List ℚ) :=
  let row0 := X.headD []
  let b := row0.length
  (List.range X.length).map (fun i =>
    (List.range b).map (fun j =>
      let x0 := row0.getD j 0
      if i = 0 then
        ((X.length - 1 : ℕ) : ℚ) * (-(2 * x0 / scale ^ 2))
          + (((X.drop 1).map (fun row => (row.getD j 0) ^ 2)).sum) * e x0 / (e x0) ^ 2
      else
        -(2 * entry X i j / e x0)))

/-- Constructor parameters of a `Funnel` instance that participate in
identity: `scale` (a Python float), `ndims` and `nbatch` (ints). -/
structure FunnelModel where
  scale : ℚ
  ndims : ℤ
  nbatch : ℤ

/-- Embedding of `Funnel.__hash__`, `hash((self.scale, self.ndims))`:
the CPython tuple hash is a function `T` of the element hashes only. -/
def Funnel.hash (T : List ℤ → ℤ) (f : FunnelModel) : ℤ :=
  T [pyHashRat f.scale, pyHashInt f.ndims]

/- ### TFGaussian -/

/-- Embedding of `TFGaussian.build_energy_op` at a feed `X` of shape
`[ndims, b]`: `tf.reduce_sum(state_pl ** 2, 0) / (2 * sigma ** 2)`. -/
def TFGaussian.energy_op (sigma : ℚ) (X : List (List ℚ)) : List ℚ :=
  let b := (X.headD []).length
  (reduceSum0 b (X.map (fun row => row.map (fun v => v ^ 2)))).map
    (fun s => s / (2 * sigma ^ 2))

/-- Embedding of `tf.gradients(energy_op, state_pl)[0]` for `TFGaussian`:
the exact gradient of `sum_j sum_i x_ij^2 / (2 sigma^2)` is `x_ij / sigma^2`. -/
def TFGaussian.grad_op (sigma : ℚ) (X : List (List ℚ)) : List (List ℚ) :=
  X.map (fun row => row.map (fun v => v / sigma ^ 2))

/-- Constructor parameters of a `TFGaussian` instance that participate in
identity: `ndims` and `nbatch` (ints) and `sigma` (a Python float). -/
structure TFGaussianModel where
  ndims : ℤ
  nbatch : ℤ
  sigma : ℚ

/-- Embedding of `TFGaussian.__hash__`, `hash((self.ndims, self.sigma))`:
the CPython tuple hash is a function `T` of the element hashes only. -/
def TFGaussian.hash (T : List ℤ → ℤ) (g : TFGaussianModel) : ℤ :=
  T [pyHashInt g.ndims, pyHashRat g.sigma]

/- ### SparseImageCode -/

/-- Embedding of the reshape
`shaped_state = tf.reshape(state_pl, [n_patches, -1, n_coeffs, 1])`:
row-major reindexing of the `[ndims, b]` feed, so logical entry `(p, q, c)`
reads flat offset `p*b*n_coeffs + q*n_coeffs + c`, which sits at row
`offset / b`, column `offset % b` of `X`. -/
def SparseImageCode.shaped_state (X : List (List ℚ)) (b n_coeffs : ℕ)
    (p q c : ℕ) : ℚ :=
  let offset := p * (b * n_coeffs) + q * n_coeffs + c
  entry X (offset / b) (offset % b)

/-- Embedding of
`tf.batch_matmul(shaped_basis, shaped_state)[:, :, :, 0]`: the per-patch,
per-batch reconstruction `sum_c basis[pix, c] * shaped_state[p, q, c]`
(the tiled basis is the same `[img_size, n_coeffs]` basis at every
`(p, q)` index, and the `[:, :n_active]` slice only trims the tile to the
active batch width). -/
def SparseImageCode.reconstruction (basis X : List (List ℚ))
    (b n_coeffs : ℕ) (p q pix : ℕ) : ℚ :=
  ((List.range n_coeffs).map
    (fun c => entry basis pix c * SparseImageCode.shaped_state X b n_coeffs p q c)).sum

/-- Embedding of `SparseImageCode.build_energy_op` at a feed `X` of shape
`[n_patches * n_coeffs, b]` with `b` at most the construction-time `nbatch`
(larger feeds fail the tile slice at run time). `img_size` and `n_coeffs`
are read off the basis as in `self.basis.shape`; per batch column the energy
is the mean over patches of `sum_pix 0.5 * (patch - reconstruction)^2` plus
the sparsity penalty: `lmbda * sum_i log(1 + x_i^2)` under the Cauchy prior
(`lg` embeds `tf.log`), `lmbda * sum_i |x_i|` under Laplace. -/
def SparseImageCode.energy_op (cauchy : Bool) (lg : ℚ → ℚ) (lmbda : ℚ)
    (patches basis : List (List ℚ)) (n_patches : ℕ)
    (X : List (List ℚ)) : List ℚ :=
  let img_size := basis.length
  let n_coeffs := (basis.headD []).length
  let b := (X.headD []).length
  (List.range b).map (fun q =>
    let reconstruction_error :=
      (((List.range n_patches).map (fun p =>
        ((List.range img_size).map (fun pix =>
          (1 / 2 : ℚ) *
            (entry patches p pix -
              SparseImageCode.reconstruction basis X b n_coeffs p q pix) ^ 2)).sum)).sum)
        / (n_patches : ℚ)
    let sp_penalty :=
      if cauchy then
        lmbda * ((List.range X.length).map (fun i => lg (1 + (entry X i q) ^ 2))).sum
      else
        lmbda * ((List.range X.length).map (fun i => |entry X i q|)).sum
    reconstruction_error + sp_penalty)

/-- Sign function with `sign 0 = 0`, the subgradient `tf.gradients` uses for
`tf.abs` at the origin. -/
def tfSign (x : ℚ) : ℚ :=
  if 0 < x then 1 else if x < 0 then -1 else 0

/-- Embedding of `tf.gradients(energy_op, state_pl)[0]` for
`SparseImageCode`: the exact gradient of the summed energy. Entry `(i, j)`
of the feed is logical coefficient `(p, q, c)` under the row-major reshape
(`offset = i*b + j`), so it receives the adjoint of the reconstruction error
of batch column `q` through the basis, plus the penalty derivative taken at
`X[i][j]` itself (`d/dx log(1+x^2) = 2x/(1+x^2)`, `d/dx |x| = sign x`). -/
def SparseImageCode.grad_op (cauchy : Bool) (lmbda : ℚ)
    (patches basis : List (List ℚ)) (n_patches : ℕ)
    (X : List (List ℚ)) : List (List ℚ) :=
  let img_size := basis.length
  let n_coeffs := (basis.headD []).length
  let b := (X.headD []).length
  (List.range X.length).map (fun i =>
    (List.range b).map (fun j =>
      let offset := i * b + j
      let p := offset / (b * n_coeffs)
      let rem := offset % (b * n_coeffs)
      let q := rem / n_coeffs
      let c := rem % n_coeffs
      let recon_part :=
        ((List.range img_size).map (fun pix =>
          (SparseImageCode.reconstruction basis X b n_coeffs p q pix -
            entry patches p pix) * entry basis pix c)).sum / (n_patches : ℚ)
      let pen_part :=
        if cauchy then lmbda * (2 * entry X i j / (1 + (entry X i j) ^ 2))
        else lmbda * tfSign (entry X i j)
      recon_part + pen_part))

/-- Object state of a `SparseImageCode` instance as far as `__hash__` and
the numpy buffers are concerned: the array contents, their writeable flags,
and the constructor parameters (including the `cauchy` flag). -/
structure SICState where
  imgs : List (List ℚ)
  basis : List (List ℚ)
  imgs_writeable : Bool
  basis_writeable : Bool
  lmbda : ℚ
  n_patches : ℤ
  n_coeffs : ℤ
  cauchy : Bool
deriving DecidableEq

/-- Embedding of `SparseImageCode.__hash__`: first sets
`imgs.flags.writeable = False` and `basis.flags.writeable = False` (so the
raw buffers become hashable), then returns
`hash((hash(imgs.data), hash(basis.data), hash(lmbda), hash(n_patches), n_coeffs))`.
`bufHash` embeds the content hash of a read-only numpy buffer, and `T` the
CPython tuple hash as a function of the element hashes. Returns the hash
value together with the post-call object state. -/
def SparseImageCode.hashCall (T : List ℤ → ℤ) (bufHash : List (List ℚ) → ℤ)
    (st : SICState) : ℤ × SICState :=
  let st2 := { st with imgs_writeable := false, basis_writeable := false };
  (T [pyHashInt (bufHash st2.imgs), pyHashInt (bufHash st2.basis),
      pyHashRat st2.lmbda, pyHashInt st2.n_patches, pyHashInt st2.n_coeffs],
   st2)

/-- Embedding of a numpy element assignment `st.imgs[i, j] = v`: succeeds
and updates the buffer while the array is writeable, raises
`ValueError: assignment destination is read-only` once it is frozen. -/
def SICState.setImgsItem (st : SICState) (i j : ℕ) (v : ℚ) :
    Except String SICState :=
  if st.imgs_writeable then
    .ok { st with imgs := st.imgs.set i ((st.imgs.getD i []).set j v) }
  else
    .error "ValueError: assignment destination is read-only"

/-- Embedding of a numpy element assignment `st.basis[i, j] = v`, as for
`SICState.setImgsItem`. -/
def SICState.setBasisItem (st : SICState) (i j : ℕ) (v : ℚ) :
    Except String SICState :=
  if st.basis_writeable then
    .ok { st with basis := st.basis.set i ((st.basis.getD i []).set j v) }
  else
    .error "ValueError: assignment destination is read-only"

/- ### List-level lemmas about the tensor operations -/

lemma zipWith_getD (f : ℚ → ℚ → ℚ) (xs ys : List ℚ) (j : ℕ)
    (h1 : j < xs.length) (h2 : j < ys.length) :
    (List.zipWith f xs ys).getD j 0 = f (xs.getD j 0) (ys.getD j 0) := by
  rw [List.getD_eq_getElem _ _ (by simp [h1, h2]), List.getD_eq_getElem _ _ h1,
    List.getD_eq_getElem _ _ h2]
  simp

lemma reduceSum0_nil (b : ℕ) : reduceSum0 b [] = List.replicate b 0 := rfl

lemma reduceSum0_cons (b : ℕ) (r : List ℚ) (rs : List (List ℚ)) :
    reduceSum0 b (r :: rs) = List.zipWith (fun a c => a + c) r (reduceSum0 b rs) := rfl

lemma reduceSum0_length (b : ℕ) (rows : List (List ℚ))
    (h : ∀ r ∈ rows, r.length = b) : (reduceSum0 b rows).length = b := by
  induction rows with
  | nil => simp [reduceSum0_nil]
  | cons r rs ih =>
    rw [reduceSum0_cons]
    simp [List.length_zipWith, h r (by simp), ih (fun x hx => h x (by simp [hx]))]

lemma reduceSum0_getD (b : ℕ) (rows : List (List ℚ)) (j : ℕ) (hj : j < b)
    (h : ∀ r ∈ rows, r.length = b) :
    (reduceSum0 b rows).getD j 0 = (rows.map (fun r => r.getD j 0)).sum := by
  induction rows with
  | nil => simp [reduceSum0_nil, List.getD]
  | cons r rs ih =>
    rw [reduceSum0_cons,
      zipWith_getD _ _ _ j (by rw [h r (by simp)]; exact hj)
        (by rw [reduceSum0_length b rs (fun x hx => h x (by simp [hx]))]; exact hj),
      ih (fun x hx => h x (by simp [hx]))]
    simp

lemma getD_map_of_lt (f : ℚ → ℚ) (l : List ℚ) (j : ℕ) (h : j < l.length) :
    (l.map f).getD j 0 = f (l.getD j 0) := by
  rw [List.getD_eq_getElem _ _ (by simpa using h), List.getD_eq_getElem _ _ h]
  simp

lemma range_map_getD {α β : Type} (d : α) (f : α → β) (l : List α) :
    (List.range l.length).map (fun i => f (l.getD i d)) = l.map f := by
  induction l with
  | nil => simp
  | cons x xs ih =>
    rw [List.length_cons, List.range_succ_eq_map, List.map_cons, List.map_map]
    simp only [Function.comp, List.getD_cons_zero, List.getD_cons_succ]
    exact congrArg _ ih

lemma sum_map_const_add (c : ℚ) (f : List ℚ → ℚ) (l : List (List ℚ)) :
    (l.map (fun r => c + f r)).sum = l.length * c + (l.map f).sum := by
  induction l with
  | nil => simp
  | cons r rs ih =>
    simp only [List.map_cons, List.sum_cons, ih, List.length_cons]
    push_cast
    ring

lemma sum_map_neg_div (g : List ℚ → ℚ) (l : List (List ℚ)) :
    (l.map (fun r => -(g r))).sum = -((l.map g).sum) := by
  induction l with
  | nil => simp
  | cons r rs ih => simp [ih]; ring

/- ### Claim theorems -/

/-- C1 (counterexample): the spec's per-column Funnel energy formula
`-(x0^2/scale^2) - sum_k(x_k^2 / exp(x0))` does not hold of
`Funnel.build_energy_op`: broadcasting adds the `x0` term once per remaining
coordinate, so already at `scale = 1`, `ndims = 3`, `X = [[1],[0],[0]]` the
op yields `-2` where the formula says `-1`. -/
theorem funnel_energy_spec_formula_refuted :
    ¬ (∀ (e : ℚ → ℚ) (scale : ℚ) (X : List (List ℚ)) (d b j : ℕ),
        isMatrix d b X → 1 ≤ d → j < b →
        (Funnel.energy_op e scale X).getD j 0 =
          Funnel.energySpecFormula e scale X j) := by
  intro h
  have h1 := h (fun _ => 1) 1 [[1], [0], [0]] 3 1 0 (by decide) (by decide) (by decide)
  exact absurd h1 (by norm_num [Funnel.energy_op, Funnel.energySpecFormula, reduceSum0])

/-- C1 (amended): for every batch `X` of shape `[ndims, b]` with
`ndims ≥ 1`, the energy of batch column `j` computed by
`Funnel.build_energy_op` equals
`(ndims - 1) * (-(x0^2/scale^2)) - sum_k(x_k^2 / exp(x0))`:
the broadcast of `e_x_0` over the `ndims - 1` rows of `e_x_k` makes the
first term enter once per remaining coordinate. -/
theorem funnel_energy_broadcast_closed_form :
    ∀ (e : ℚ → ℚ) (scale : ℚ) (X : List (List ℚ)) (d b j : ℕ),
      isMatrix d b X → 1 ≤ d → j < b →
      (Funnel.energy_op e scale X).getD j 0 =
        ((X.length - 1 : ℕ) : ℚ) * (-((X.headD []).getD j 0 ^ 2 / scale ^ 2)) -
          ((X.drop 1).map
            (fun row => (row.getD j 0) ^ 2 / e ((X.headD []).getD j 0))).sum := by
  intro e scale X d b j hX hd hj
  obtain ⟨hlen, hrow⟩ := hX
  match X, hlen, hd, hrow with
  | r :: rs, _, _, hrow =>
    have hr : r.length = b := hrow r (by simp)
    have hrows : ∀ rr ∈ (rs.map (fun row =>
        List.zipWith (fun xk x0 => -(xk ^ 2 / e x0)) row r)).map (fun row =>
        List.zipWith (fun a c => a + c) (r.map (fun v => -(v ^ 2 / scale ^ 2))) row),
        rr.length = r.length := by
      intro rr hrr
      obtain ⟨row1, hmem1, rfl⟩ := List.mem_map.1 hrr
      obtain ⟨row, hmem, rfl⟩ := List.mem_map.1 hmem1
      simp [List.length_zipWith, hrow row (by simp [hmem]), hr]
    show (Funnel.energy_op e scale (r :: rs)).getD j 0 = _
    unfold Funnel.energy_op
    simp only [List.headD_cons, List.drop_succ_cons, List.drop_zero]
    rw [reduceSum0_getD _ _ j (hr ▸ hj) hrows]
    simp only [List.map_map, Function.comp_def]
    have hterm : ∀ row ∈ rs,
        (List.zipWith (fun a c => a + c) (r.map (fun v => -(v ^ 2 / scale ^ 2)))
          (List.zipWith (fun xk x0 => -(xk ^ 2 / e x0)) row r)).getD j 0 =
        -(r.getD j 0 ^ 2 / scale ^ 2) + -((row.getD j 0) ^ 2 / e (r.getD j 0)) := by
      intro row hmem
      have hrl : row.length = b := hrow row (by simp [hmem])
      rw [zipWith_getD _ _ _ j (by simp [hr, hj]) (by simp [List.length_zipWith, hr, hrl, hj]),
        getD_map_of_lt _ _ j (hr ▸ hj),
        zipWith_getD _ _ _ j (hrl ▸ hj) (hr ▸ hj)]
    rw [List.map_congr_left hterm, sum_map_const_add (-(r.getD j 0 ^ 2 / scale ^ 2))
      (fun row => -((row.getD j 0) ^ 2 / e (r.getD j 0))) rs,
      sum_map_neg_div (fun row => (row.getD j 0) ^ 2 / e (r.getD j 0)) rs]
    simp only [List.length_cons, List.headD_cons, List.drop_succ_cons, List.drop_zero,
      Nat.add_sub_cancel]
    ring

/-- C1 (witness): the amended Funnel closed form evaluated at
`scale = 1`, `ndims = 2`, `X = [[1],[2]]`, batch column `0`. -/
theorem funnel_energy_broadcast_closed_form_witness :
    isMatrix 2 1 [[(1 : ℚ)], [2]] ∧ (1 : ℕ) ≤ 2 ∧ (0 : ℕ) < 1 ∧
    (Funnel.energy_op (fun _ => 1) 1 [[1], [2]]).getD 0 0 =
      (((([[(1 : ℚ)], [2]]).length - 1 : ℕ)) : ℚ) *
          (-((([[(1 : ℚ)], [2]]).headD []).getD 0 0 ^ 2 / 1 ^ 2)) -
        ((([[(1 : ℚ)], [2]]).drop 1).map
          (fun row => (row.getD 0 0) ^ 2 /
            (fun _ => (1 : ℚ)) ((([[(1 : ℚ)], [2]]).headD []).getD 0 0))).sum :=
  ⟨by decide, by decide, by decide,
    funnel_energy_broadcast_closed_form (fun _ => 1) 1 [[1], [2]] 2 1 0
      (by decide) (by decide) (by decide)⟩

/-- C3: the isotropic Gaussian energy of batch column `j` is
`sum_i(x_i^2) / (2 * sigma^2)`, and in particular for `ndims = 2`,
`sigma = 1` the energy of `[[0],[0]]` is `[0]` and of `[[1],[1]]` is `[1]`. -/
theorem gaussian_energy_closed_form :
    (∀ (sigma : ℚ) (X : List (List ℚ)) (d b j : ℕ),
      isMatrix d b X → 1 ≤ d → j < b →
      (TFGaussian.energy_op sigma X).getD j 0 =
        (X.map (fun row => (row.getD j 0) ^ 2)).sum / (2 * sigma ^ 2)) ∧
    TFGaussian.energy_op 1 [[0], [0]] = [0] ∧
    TFGaussian.energy_op 1 [[1], [1]] = [1] := by
  refine ⟨?_, by norm_num [TFGaussian.energy_op, reduceSum0],
    by norm_num [TFGaussian.energy_op, reduceSum0]⟩
  intro sigma X d b j hX hd hj
  obtain ⟨hlen, hrow⟩ := hX
  match X, hlen, hd, hrow with
  | r :: rs, _, _, hrow =>
    have hr : r.length = b := hrow r (by simp)
    have hrows : ∀ rr ∈ (r :: rs).map (fun row => row.map (fun v => v ^ 2)),
        rr.length = r.length := by
      intro rr hrr
      obtain ⟨row, hmem, rfl⟩ := List.mem_map.1 hrr
      simp [hrow row hmem, hr]
    show (TFGaussian.energy_op sigma (r :: rs)).getD j 0 = _
    unfold TFGaussian.energy_op
    simp only [List.headD_cons]
    rw [getD_map_of_lt _ _ j (by rw [reduceSum0_length _ _ hrows]; exact hr ▸ hj),
      reduceSum0_getD _ _ j (hr ▸ hj) hrows, List.map_map]
    congr 1
    refine congrArg List.sum (List.map_congr_left ?_)
    intro row hmem
    simp only [Function.comp_def]
    exact getD_map_of_lt _ _ j (by rw [hrow row hmem]; exact hj)

/-- C3 (witness): the Gaussian closed form evaluated at `sigma = 2`,
`X = [[1,2],[1,0]]`, batch column `1`. -/
theorem gaussian_energy_closed_form_witness :
    isMatrix 2 2 [[(1 : ℚ), 2], [1, 0]] ∧ (1 : ℕ) ≤ 2 ∧ (1 : ℕ) < 2 ∧
    (TFGaussian.energy_op 2 [[1, 2], [1, 0]]).getD 1 0 =
      (([[(1 : ℚ), 2], [1, 0]]).map (fun row => (row.getD 1 0) ^ 2)).sum / (2 * 2 ^ 2) :=
  ⟨by decide, by decide, by decide,
    gaussian_energy_closed_form.1 2 [[1, 2], [1, 0]] 2 2 1 (by decide) (by decide) (by decide)⟩

/-- C2: for each of the three energy models and every feed `X` of shape
`[ndims, b]` with `1 ≤ b ≤ nbatch`, the energy op evaluates to an array of
shape `[b]` and the gradient op to an array of shape `[ndims, b]`
(for `SparseImageCode`, `ndims = n_patches * n_coeffs`, the patches are
`[n_patches, img_size]` and the basis `[img_size, n_coeffs]`). -/
theorem energy_gradient_shapes :
    ∀ (e lg : ℚ → ℚ) (scale sigma lmbda : ℚ) (cauchy : Bool)
      (patches basis Xf Xg Xs : List (List ℚ))
      (n_patches img_size n_coeffs nbatch d1 d2 b : ℕ),
      1 ≤ b → b ≤ nbatch →
      isMatrix d1 b Xf → 1 ≤ d1 →
      isMatrix d2 b Xg → 1 ≤ d2 →
      isMatrix n_patches img_size patches →
      isMatrix img_size n_coeffs basis →
      isMatrix (n_patches * n_coeffs) b Xs →
      1 ≤ n_patches → 1 ≤ n_coeffs →
      (Funnel.energy_op e scale Xf).length = b ∧
      isMatrix d1 b (Funnel.grad_op e scale Xf) ∧
      (TFGaussian.energy_op sigma Xg).length = b ∧
      isMatrix d2 b (TFGaussian.grad_op sigma Xg) ∧
      (SparseImageCode.energy_op cauchy lg lmbda patches basis n_patches Xs).length = b ∧
      isMatrix (n_patches * n_coeffs) b
        (SparseImageCode.grad_op cauchy lmbda patches basis n_patches Xs) := by
  intro e lg scale sigma lmbda cauchy patches basis Xf Xg Xs
    n_patches img_size n_coeffs nbatch d1 d2 b hb hbn hXf hd1 hXg hd2 hP hB hXs hnp hnc
  have headLen : ∀ (X : List (List ℚ)) (d : ℕ), 1 ≤ d → X.length = d →
      (∀ row ∈ X, row.length = b) → (X.head?.getD []).length = b := by
    intro X d hd hlen hrow
    match X, hlen, hd with
    | r :: rs, _, _ => simpa using hrow r (by simp)
  refine ⟨?_, ⟨?_, ?_⟩, ?_, ⟨?_, ?_⟩, ?_, ⟨?_, ?_⟩⟩
  · -- Funnel energy shape
    obtain ⟨hlen, hrow⟩ := hXf
    match Xf, hlen, hd1, hrow with
    | r :: rs, _, _, hrow =>
      have hr : r.length = b := hrow r (by simp)
      show (Funnel.energy_op e scale (r :: rs)).length = b
      unfold Funnel.energy_op
      simp only [List.headD_cons, List.drop_succ_cons, List.drop_zero]
      rw [reduceSum0_length]
      · exact hr
      · intro rr hrr
        obtain ⟨row1, hmem1, rfl⟩ := List.mem_map.1 hrr
        obtain ⟨row, hmem, rfl⟩ := List.mem_map.1 hmem1
        simp [List.length_zipWith, hrow row (by simp [hmem]), hr]
  · -- Funnel gradient: outer length
    obtain ⟨hlen, hrow⟩ := hXf
    simp [Funnel.grad_op, hlen]
  · -- Funnel gradient: row lengths
    obtain ⟨hlen, hrow⟩ := hXf
    intro row hmem
    unfold Funnel.grad_op at hmem
    simp only [List.mem_map] at hmem
    obtain ⟨i, _, rfl⟩ := hmem
    simp [headLen Xf d1 hd1 hlen hrow]
  · -- Gaussian energy shape
    obtain ⟨hlen, hrow⟩ := hXg
    match Xg, hlen, hd2, hrow with
    | r :: rs, _, _, hrow =>
      have hr : r.length = b := hrow r (by simp)
      show (TFGaussian.energy_op sigma (r :: rs)).length = b
      unfold TFGaussian.energy_op
      simp only [List.headD_cons, List.length_map]
      rw [reduceSum0_length]
      · exact hr
      · intro rr hrr
        obtain ⟨row, hmem, rfl⟩ := List.mem_map.1 hrr
        simp [hrow row hmem, hr]
  · -- Gaussian gradient: outer length
    obtain ⟨hlen, hrow⟩ := hXg
    simp [TFGaussian.grad_op, hlen]
  · -- Gaussian gradient: row lengths
    obtain ⟨hlen, hrow⟩ := hXg
    intro row hmem
    unfold TFGaussian.grad_op at hmem
    simp only [List.mem_map] at hmem
    obtain ⟨row0, hmem0, rfl⟩ := hmem
    simp [hrow row0 hmem0]
  · -- SparseImageCode energy shape
    obtain ⟨hlen, hrow⟩ := hXs
    have hd : 1 ≤ n_patches * n_coeffs := Nat.one_le_iff_ne_zero.2 (by positivity)
    unfold SparseImageCode.energy_op
    simp [headLen Xs (n_patches * n_coeffs) hd hlen hrow]
  · -- SparseImageCode gradient: outer length
    obtain ⟨hlen, hrow⟩ := hXs
    simp [SparseImageCode.grad_op, hlen]
  · -- SparseImageCode gradient: row lengths
    obtain ⟨hlen, hrow⟩ := hXs
    have hd : 1 ≤ n_patches * n_coeffs := Nat.one_le_iff_ne_zero.2 (by positivity)
    intro row hmem
    unfold SparseImageCode.grad_op at hmem
    simp only [List.mem_map] at hmem
    obtain ⟨i, _, rfl⟩ := hmem
    simp [headLen Xs (n_patches * n_coeffs) hd hlen hrow]

/-- C2 (witness): the shape contract instantiated at concrete feeds
(`Funnel` on `[[1],[2]]`, `TFGaussian` on `[[3],[4]]`, `SparseImageCode`
with one patch `[1, 2]`, basis `[[3],[4]]` and feed `[[5]]`, batch width 1). -/
theorem energy_gradient_shapes_witness :
    (1 : ℕ) ≤ 1 ∧ isMatrix 2 1 [[(1 : ℚ)], [2]] ∧ isMatrix 2 1 [[(3 : ℚ)], [4]] ∧
    isMatrix 1 2 [[(1 : ℚ), 2]] ∧ isMatrix 2 1 [[(3 : ℚ)], [4]] ∧
    isMatrix (1 * 1) 1 [[(5 : ℚ)]] ∧
    ((Funnel.energy_op (fun _ => 1) 1 [[1], [2]]).length = 1 ∧
     isMatrix 2 1 (Funnel.grad_op (fun _ => 1) 1 [[1], [2]]) ∧
     (TFGaussian.energy_op 1 [[3], [4]]).length = 1 ∧
     isMatrix 2 1 (TFGaussian.grad_op 1 [[3], [4]]) ∧
     (SparseImageCode.energy_op false (fun _ => 0) (1 / 100) [[1, 2]] [[3], [4]] 1
        [[5]]).length = 1 ∧
     isMatrix (1 * 1) 1
       (SparseImageCode.grad_op false (1 / 100) [[1, 2]] [[3], [4]] 1 [[5]])) :=
  ⟨by decide, by decide, by decide, by decide, by decide, by decide,
    energy_gradient_shapes (fun _ => 1) (fun _ => 0) 1 1 (1 / 100) false
      [[1, 2]] [[3], [4]] [[1], [2]] [[3], [4]] [[5]] 1 2 1 1 2 2 1
      (by decide) (by decide) (by decide) (by decide) (by decide) (by decide)
      (by decide) (by decide) (by decide) (by decide) (by decide)⟩

lemma map_const_range {α : Type} (n : ℕ) (c : α) :
    (List.range n).map (fun _ => c) = List.replicate n c := by
  induction n with
  | zero => simp
  | succ m ih => rw [List.range_succ, List.map_append, ih, List.replicate_succ']; simp

lemma getD_replicate {α : Type} (n i : ℕ) (x d : α) :
    (List.replicate n x).getD i d = if i < n then x else d := by
  rcases Nat.lt_or_ge i n with h | h
  · rw [if_pos h, List.getD_eq_getElem _ _ (by simpa using h), List.getElem_replicate]
  · rw [if_neg (by omega), List.getD_eq_default _ _ (by simpa using h)]

lemma entry_replicate_zero (n b i j : ℕ) :
    entry (List.replicate n (List.replicate b (0 : ℚ))) i j = 0 := by
  unfold entry
  rw [getD_replicate]
  split
  · rw [getD_replicate]
    split <;> rfl
  · simp [List.getD]

lemma sic_reconstruction_zero (basis : List (List ℚ)) (n b nc p q pix : ℕ) :
    SparseImageCode.reconstruction basis
      (List.replicate n (List.replicate b (0 : ℚ))) b nc p q pix = 0 := by
  unfold SparseImageCode.reconstruction SparseImageCode.shaped_state
  refine List.sum_eq_zero ?_
  intro x hx
  simp only [List.mem_map] at hx
  obtain ⟨c, _, rfl⟩ := hx
  rw [entry_replicate_zero]
  ring

/-- C4: for `SparseImageCode` with the Laplace penalty (`cauchy = False`)
and an all-zero coefficient batch, every batch column's energy equals one
half times the mean over the `n_patches` selected patches of the sum of
squared pixel values of each patch — the penalty vanishes at zero and each
reconstruction is the zero image. -/
theorem sic_energy_zero_state :
    ∀ (lg : ℚ → ℚ) (lmbda : ℚ) (patches basis : List (List ℚ))
      (n_patches img_size n_coeffs b nbatch : ℕ),
      isMatrix n_patches img_size patches →
      isMatrix img_size n_coeffs basis →
      1 ≤ n_patches → 1 ≤ n_coeffs → 1 ≤ b → b ≤ nbatch →
      SparseImageCode.energy_op false lg lmbda patches basis n_patches
        (List.replicate (n_patches * n_coeffs) (List.replicate b 0)) =
      List.replicate b
        ((1 / 2) * (patches.map (fun prow => (prow.map (fun v => v ^ 2)).sum)).sum
          / (n_patches : ℚ)) := by
  intro lg lmbda patches basis n_patches img_size n_coeffs b nbatch hP hB hnp hnc hb hbn
  obtain ⟨hPlen, hProw⟩ := hP
  obtain ⟨hBlen, hBrow⟩ := hB
  have hhead : ((List.replicate (n_patches * n_coeffs)
      (List.replicate b (0 : ℚ))).headD []).length = b := by
    obtain ⟨m, hm⟩ : ∃ m, n_patches * n_coeffs = m + 1 :=
      ⟨n_patches * n_coeffs - 1, by have h := Nat.mul_le_mul hnp hnc; omega⟩
    rw [hm, List.replicate_succ]
    simp
  unfold SparseImageCode.energy_op
  dsimp only
  rw [hhead]
  refine (List.map_congr_left ?_).trans (map_const_range b _)
  intro q hq
  rw [if_neg (by simp)]
  have hpen : ((List.range (List.replicate (n_patches * n_coeffs)
      (List.replicate b (0 : ℚ))).length).map
        (fun i => |entry (List.replicate (n_patches * n_coeffs)
          (List.replicate b (0 : ℚ))) i q|)).sum = 0 := by
    refine List.sum_eq_zero ?_
    intro x hx
    simp only [List.mem_map] at hx
    obtain ⟨i, _, rfl⟩ := hx
    rw [entry_replicate_zero, abs_zero]
  rw [hpen, mul_zero, add_zero]
  have hinner : ∀ p ∈ List.range n_patches,
      ((List.range basis.length).map (fun pix =>
        (1 / 2 : ℚ) * (entry patches p pix -
          SparseImageCode.reconstruction basis
            (List.replicate (n_patches * n_coeffs) (List.replicate b 0)) b
            ((basis.headD []).length) p q pix) ^ 2)).sum =
      (1 / 2 : ℚ) * ((patches.getD p []).map (fun v => v ^ 2)).sum := by
    intro p hp
    have hplen : (patches.getD p []).length = img_size := by
      refine hProw _ ?_
      rw [List.getD_eq_getElem _ _ (by rw [hPlen]; simpa using hp)]
      exact List.getElem_mem _
    have hblen : basis.length = (patches.getD p []).length := by rw [hBlen, hplen]
    calc ((List.range basis.length).map (fun pix =>
            (1 / 2 : ℚ) * (entry patches p pix -
              SparseImageCode.reconstruction basis
                (List.replicate (n_patches * n_coeffs) (List.replicate b 0)) b
                ((basis.headD []).length) p q pix) ^ 2)).sum
        = ((List.range (patches.getD p []).length).map (fun pix =>
            (1 / 2 : ℚ) * ((patches.getD p []).getD pix 0) ^ 2)).sum := by
          rw [hblen]
          refine congrArg List.sum (List.map_congr_left ?_)
          intro pix _
          rw [sic_reconstruction_zero, sub_zero]
          rfl
      _ = ((patches.getD p []).map (fun v => (1 / 2 : ℚ) * v ^ 2)).sum := by
          rw [range_map_getD (0 : ℚ) (fun v => (1 / 2 : ℚ) * v ^ 2) (patches.getD p [])]
      _ = (1 / 2 : ℚ) * ((patches.getD p []).map (fun v => v ^ 2)).sum := by
          rw [List.sum_map_mul_left]
  rw [List.map_congr_left hinner]
  have houter : ((List.range n_patches).map (fun p =>
      (1 / 2 : ℚ) * ((patches.getD p []).map (fun v => v ^ 2)).sum)).sum =
      (1 / 2 : ℚ) * (patches.map (fun prow => (prow.map (fun v => v ^ 2)).sum)).sum := by
    rw [← hPlen, range_map_getD ([] : List ℚ)
      (fun prow => (1 / 2 : ℚ) * (prow.map (fun v => v ^ 2)).sum) patches,
      List.sum_map_mul_left]
  rw [houter]

/-- C4 (witness): one patch `[1, 2]`, basis `[[3],[4]]`, `lambda = 1/100`,
batch width 1: the zero-coefficient energy is `[(1/2) * (1^2 + 2^2)]`. -/
theorem sic_energy_zero_state_witness :
    isMatrix 1 2 [[(1 : ℚ), 2]] ∧ isMatrix 2 1 [[(3 : ℚ)], [4]] ∧
    SparseImageCode.energy_op false (fun _ => 0) (1 / 100) [[1, 2]] [[3], [4]] 1
        (List.replicate (1 * 1) (List.replicate 1 0)) =
      List.replicate 1
        ((1 / 2) * (([[(1 : ℚ), 2]]).map (fun prow => (prow.map (fun v => v ^ 2)).sum)).sum
          / ((1 : ℕ) : ℚ)) :=
  ⟨by decide, by decide,
    sic_energy_zero_state (fun _ => 0) (1 / 100) [[1, 2]] [[3], [4]] 1 2 1 1 1
      (by decide) (by decide) (by decide) (by decide) (by decide) (by decide)⟩

set_option maxRecDepth 8000 in
lemma pyHashRat_one : pyHashRat (1 : ℚ) = 1 := by decide

set_option maxRecDepth 8000 in
lemma pyHashRat_two_pow_61 : pyHashRat ((2305843009213693952 : ℚ)) = 1 := by decide

/-- C5 (counterexample): two `TFGaussian` instances with equal `ndims` and
distinct `sigma` need not hash differently: the CPython numeric hash is
reduction mod `2^61 - 1`, so `sigma = 1.0` and `sigma = 2.0^61` (both exact
floats) have the same parameter hash `1`, hence equal tuple inputs and equal
instance hashes under any tuple-hash function. -/
theorem gaussian_hash_sigma_injectivity_refuted :
    ¬ (∀ (T : List ℤ → ℤ) (g1 g2 : TFGaussianModel),
        g1.ndims = g2.ndims → g1.sigma ≠ g2.sigma →
        TFGaussian.hash T g1 ≠ TFGaussian.hash T g2) := by
  intro h
  refine h (fun l => l.sum) ⟨2, 50, 1⟩ ⟨2, 50, 2305843009213693952⟩ rfl
    (by norm_num) ?_
  show (fun l => l.sum) [pyHashInt 2, pyHashRat 1] =
    (fun l => l.sum) [pyHashInt 2, pyHashRat 2305843009213693952]
  rw [pyHashRat_one, pyHashRat_two_pow_61]

/-- C5 (amended): each model's hash is a function of the CPython hashes of
its defining parameters only — `(ndims, sigma)` for `TFGaussian` and
`(scale, ndims)` for `Funnel`, with `nbatch` and every other attribute
irrelevant — so identically-parametrised instances always hash equal, and
instances with different parameters hash differently exactly up to
collisions of the underlying parameter hashes (which exist, e.g.
`sigma = 1.0` versus `sigma = 2.0^61`). -/
theorem hash_param_function :
    ∀ (T : List ℤ → ℤ) (g1 g2 : TFGaussianModel) (f1 f2 : FunnelModel),
      (pyHashInt g1.ndims = pyHashInt g2.ndims →
        pyHashRat g1.sigma = pyHashRat g2.sigma →
        TFGaussian.hash T g1 = TFGaussian.hash T g2) ∧
      (pyHashRat f1.scale = pyHashRat f2.scale →
        pyHashInt f1.ndims = pyHashInt f2.ndims →
        Funnel.hash T f1 = Funnel.hash T f2) := by
  intro T g1 g2 f1 f2
  constructor
  · intro h1 h2
    unfold TFGaussian.hash
    rw [h1, h2]
  · intro h1 h2
    unfold Funnel.hash
    rw [h1, h2]

/-- C5 (witness): two Gaussians sharing `(ndims, sigma)` but with different
`nbatch` hash equal, and likewise two Funnels sharing `(scale, ndims)`. -/
theorem hash_param_function_witness :
    TFGaussian.hash (fun l => l.sum) ⟨2, 50, 1⟩ =
      TFGaussian.hash (fun l => l.sum) ⟨2, 100, 1⟩ ∧
    Funnel.hash (fun l => l.sum) ⟨1, 10, 50⟩ =
      Funnel.hash (fun l => l.sum) ⟨1, 10, 100⟩ :=
  ⟨(hash_param_function (fun l => l.sum) ⟨2, 50, 1⟩ ⟨2, 100, 1⟩
      ⟨1, 10, 50⟩ ⟨1, 10, 100⟩).1 rfl rfl,
   (hash_param_function (fun l => l.sum) ⟨2, 50, 1⟩ ⟨2, 100, 1⟩
      ⟨1, 10, 50⟩ ⟨1, 10, 100⟩).2 rfl rfl⟩

/-- C6: the `SparseImageCode` hash reads the contents of `imgs` and `basis`,
`lmbda`, `n_patches` and `n_coeffs`, and nothing else — two instances that
agree on those (in particular instances differing only in the `cauchy`
flag) receive the same hash, for every tuple-hash and buffer-hash function. -/
theorem sic_hash_ignores_cauchy :
    ∀ (T : List ℤ → ℤ) (bufHash : List (List ℚ) → ℤ) (s1 s2 : SICState),
      s1.imgs = s2.imgs → s1.basis = s2.basis → s1.lmbda = s2.lmbda →
      s1.n_patches = s2.n_patches → s1.n_coeffs = s2.n_coeffs →
      (SparseImageCode.hashCall T bufHash s1).1 =
        (SparseImageCode.hashCall T bufHash s2).1 := by
  intro T bufHash s1 s2 h1 h2 h3 h4 h5
  simp only [SparseImageCode.hashCall]
  rw [h1, h2, h3, h4, h5]

/-- C6 (witness): two concrete states identical except for `cauchy`
(`true` versus `false`) hash equal. -/
theorem sic_hash_ignores_cauchy_witness :
    (SparseImageCode.hashCall (fun l => l.sum) (fun A => (A.headD []).length)
        ⟨[[1]], [[2]], true, true, 1 / 100, 1, 1, true⟩).1 =
      (SparseImageCode.hashCall (fun l => l.sum) (fun A => (A.headD []).length)
        ⟨[[1]], [[2]], true, true, 1 / 100, 1, 1, false⟩).1 :=
  sic_hash_ignores_cauchy (fun l => l.sum) (fun A => (A.headD []).length)
    ⟨[[1]], [[2]], true, true, 1 / 100, 1, 1, true⟩
    ⟨[[1]], [[2]], true, true, 1 / 100, 1, 1, false⟩ rfl rfl rfl rfl rfl

/-- C7: a device dict lacking the key "grad" or the key "energy" makes the
constructor fail (the spec's ConfigurationError); a dict with both keys
assigns the gradient and energy devices independently; a plain string
assigns both roles the same device. -/
theorem device_spec_resolution :
    ∀ (m : List (String × String)) (s g en : String),
      (m.lookup "grad" = none →
        resolveDevice (.dict m) = .error "AssertionError: grad not in device") ∧
      (m.lookup "energy" = none →
        ∃ msg, resolveDevice (.dict m) = .error msg) ∧
      (m.lookup "grad" = some g → m.lookup "energy" = some en →
        resolveDevice (.dict m) = .ok (g, en)) ∧
      resolveDevice (.str s) = .ok (s, s) := by
  intro m s g en
  refine ⟨?_, ?_, ?_, rfl⟩
  · intro h
    simp only [resolveDevice]
    rw [h]
  · intro h
    simp only [resolveDevice]
    cases hg : m.lookup "grad" with
    | none => exact ⟨_, rfl⟩
    | some g0 =>
      rw [h]
      exact ⟨_, rfl⟩
  · intro hg he
    simp only [resolveDevice]
    rw [hg, he]

/-- C7 (witness): concrete dicts missing "grad", missing "energy", carrying
both keys, and a plain string. -/
theorem device_spec_resolution_witness :
    ([("energy", "/gpu:0")] : List (String × String)).lookup "grad" = none ∧
    resolveDevice (.dict [("energy", "/gpu:0")]) =
      .error "AssertionError: grad not in device" ∧
    ([("grad", "/cpu:0")] : List (String × String)).lookup "energy" = none ∧
    (∃ msg, resolveDevice (.dict [("grad", "/cpu:0")]) = .error msg) ∧
    resolveDevice (.dict [("grad", "/cpu:0"), ("energy", "/gpu:0")]) =
      .ok ("/cpu:0", "/gpu:0") ∧
    resolveDevice (.str "/cpu:0") = .ok ("/cpu:0", "/cpu:0") :=
  ⟨rfl,
   (device_spec_resolution [("energy", "/gpu:0")] "/cpu:0" "g" "e").1 rfl,
   rfl,
   (device_spec_resolution [("grad", "/cpu:0")] "/cpu:0" "g" "e").2.1 rfl,
   (device_spec_resolution [("grad", "/cpu:0"), ("energy", "/gpu:0")]
     "/cpu:0" "/cpu:0" "/gpu:0").2.2.1 rfl rfl,
   (device_spec_resolution [] "/cpu:0" "g" "e").2.2.2⟩

/-- C8: enabling trace capture (`prof_run = True`) changes only the optional
trace artifact: the energy and gradient values returned by `E_val` and
`dEdX_val` are identical with and without profiling, for every session-run
semantics and every feed. -/
theorem prof_run_preserves_value :
    ∀ (gd ed : String) (sr : List (List ℚ) → List ℚ)
      (srg : List (List ℚ) → List (List ℚ)) (nm : String) (t : ℕ)
      (X : List (List ℚ)),
      (E_val ⟨gd, ed, true⟩ sr nm t X).1 = (E_val ⟨gd, ed, false⟩ sr nm t X).1 ∧
      (dEdX_val ⟨gd, ed, true⟩ srg nm t X).1 =
        (dEdX_val ⟨gd, ed, false⟩ srg nm t X).1 := by
  intro gd ed sr srg nm t X
  exact ⟨rfl, rfl⟩

/-- C9: constructing with `device = d` and with
`device = {'grad': d, 'energy': d}` produce the same adapter configuration,
hence identical `E_val` and `dEdX_val` outputs on every feed. -/
theorem device_policy_string_dict_equiv :
    ∀ (d : String) (p : Bool) (c1 c2 : AdapterConfig)
      (sr : List (List ℚ) → List ℚ) (srg : List (List ℚ) → List (List ℚ))
      (nm : String) (t : ℕ) (X : List (List ℚ)),
      mkConfig (.str d) p = mkConfig (.dict [("grad", d), ("energy", d)]) p ∧
      (mkConfig (.str d) p = .ok c1 →
        mkConfig (.dict [("grad", d), ("energy", d)]) p = .ok c2 →
        E_val c1 sr nm t X = E_val c2 sr nm t X ∧
        dEdX_val c1 srg nm t X = dEdX_val c2 srg nm t X) := by
  intro d p c1 c2 sr srg nm t X
  have hres : mkConfig (.str d) p = mkConfig (.dict [("grad", d), ("energy", d)]) p := by
    simp [mkConfig, resolveDevice, List.lookup]
  refine ⟨hres, ?_⟩
  intro h1 h2
  rw [h1, h2] at hres
  injection hres with hc
  subst hc
  exact ⟨rfl, rfl⟩

/-- C9 (witness): concrete device `/cpu:0`, concrete feed. -/
theorem device_policy_string_dict_equiv_witness :
    mkConfig (.str "/cpu:0") false = .ok ⟨"/cpu:0", "/cpu:0", false⟩ ∧
    mkConfig (.dict [("grad", "/cpu:0"), ("energy", "/cpu:0")]) false =
      .ok ⟨"/cpu:0", "/cpu:0", false⟩ ∧
    E_val ⟨"/cpu:0", "/cpu:0", false⟩ (fun _ => [0]) "TFGaussian" 7 [[1]] =
      E_val ⟨"/cpu:0", "/cpu:0", false⟩ (fun _ => [0]) "TFGaussian" 7 [[1]] :=
  ⟨rfl, by simp [mkConfig, resolveDevice, List.lookup, Except.map],
   ((device_policy_string_dict_equiv "/cpu:0" false
      ⟨"/cpu:0", "/cpu:0", false⟩ ⟨"/cpu:0", "/cpu:0", false⟩
      (fun _ => [0]) (fun _ => [[0]]) "TFGaussian" 7 [[1]]).2 rfl
      (by simp [mkConfig, resolveDevice, List.lookup, Except.map])).1⟩

/-- C10: calling `__hash__` on a `SparseImageCode` instance freezes the
`imgs` and `basis` buffers as a side effect: afterwards both writeable
flags are cleared and element assignment raises, so the call is not a pure
observation of the object (it changes a writable instance), although a
repeated call returns the same value. -/
theorem sic_hash_freezes_buffers :
    ∀ (T : List ℤ → ℤ) (bufHash : List (List ℚ) → ℤ) (st : SICState)
      (i j : ℕ) (v : ℚ),
      (SparseImageCode.hashCall T bufHash st).2.imgs_writeable = false ∧
      (SparseImageCode.hashCall T bufHash st).2.basis_writeable = false ∧
      (SparseImageCode.hashCall T bufHash st).2.setImgsItem i j v =
        .error "ValueError: assignment destination is read-only" ∧
      (SparseImageCode.hashCall T bufHash st).2.setBasisItem i j v =
        .error "ValueError: assignment destination is read-only" ∧
      (SparseImageCode.hashCall T bufHash
          (SparseImageCode.hashCall T bufHash st).2).1 =
        (SparseImageCode.hashCall T bufHash st).1 ∧
      (st.imgs_writeable = true → (SparseImageCode.hashCall T bufHash st).2 ≠ st) := by
  intro T bufHash st i j v
  refine ⟨rfl, rfl, rfl, rfl, rfl, ?_⟩
  intro hw heq
  have h2 := congrArg SICState.imgs_writeable heq
  simp [SparseImageCode.hashCall, hw] at h2

/-- C10 (witness): a concrete writable instance is changed by the hash call. -/
theorem sic_hash_freezes_buffers_witness :
    ((⟨[[1]], [[2]], true, true, 1 / 100, 1, 1, true⟩ : SICState).imgs_writeable
        = true) ∧
    (SparseImageCode.hashCall (fun l => l.sum) (fun A => (A.headD []).length)
        ⟨[[1]], [[2]], true, true, 1 / 100, 1, 1, true⟩).2 ≠
      (⟨[[1]], [[2]], true, true, 1 / 100, 1, 1, true⟩ : SICState) :=
  ⟨rfl,
   (sic_hash_freezes_buffers (fun l => l.sum) (fun A => (A.headD []).length)
      ⟨[[1]], [[2]], true, true, 1 / 100, 1, 1, true⟩ 0 0 1).2.2.2.2.2 rfl⟩
